import Mathlib

/-!
Shallow embedding of `rtlobs/collect.py`, the data-collection module of an
rtl-sdr based radio telescope, together with proofs about the integration
engine it implements (total-power integration, Dicke switching, spectral
integration by Bartlett's method, frequency-switched spectral integration).

Modelling conventions:
* floating-point sample values and parameters are embedded as exact
  rationals (`ℚ`);
* numpy arrays are lists; `numpy` elementwise division by a zero count,
  which silently yields `nan`/`inf` with only a runtime warning, is made
  explicit through the value type `NpVal`; plain Python scalar division by
  zero, which raises `ZeroDivisionError`, is an `Except` error;
* the external collaborators (the rtl-sdr hardware handle, the
  `scipy.signal.welch` periodogram estimator, `scipy.signal.get_window`, the
  wall clock, and the success of hardware and file operations) are oracle
  parameters collected in an `Ext` record;
* each driver returns a `RunOut`: the sequence of externally visible
  hardware/file events it performed plus either its return value or the
  exception class it raised.
-/

namespace Rtlobs

/-- One complex IQ sample (in-phase / quadrature component), the elements of
the arrays returned by `sdr.read_samples`. -/
structure IQ where
  re : ℚ
  im : ℚ
  deriving DecidableEq

/-- Python `int(x)` applied to a real number: truncation toward zero. -/
def pyInt (q : ℚ) : ℤ := if 0 ≤ q then ⌊q⌋ else -⌊-q⌋

/-- Python `range(n)` for an integer bound that may be nonpositive (in which
case it is empty). -/
def pyRange (n : ℤ) : List ℕ := List.range n.toNat

/-- DC-spike compensation, `collect.py` lines 103, 222, 358 and 556:
`iq = (iq.real - iq.real.mean()) + 1j*(iq.imag - iq.imag.mean())`.
The real-part mean and the imaginary-part mean of the block are subtracted
componentwise and independently. -/
def dcComp (iq : List IQ) : List IQ :=
  let mre := (iq.map IQ.re).sum / (iq.length : ℚ)
  let mim := (iq.map IQ.im).sum / (iq.length : ℚ)
  iq.map (fun z => ⟨z.re - mre, z.im - mim⟩)

/-- Total power of one sample block, `collect.py` lines 104 and 223:
`np.sum(np.real(iq * np.conj(iq)))`, i.e. the sum over samples of
`I^2 + Q^2`. -/
def blockPower (iq : List IQ) : ℚ :=
  (iq.map (fun z => z.re * z.re + z.im * z.im)).sum

/-- A numpy floating-point value: either finite, or one of the non-finite
values `nan`, `inf`, `-inf` that numpy produces (with a warning, not an
exception) when dividing by zero. -/
inductive NpVal where
  | fin (q : ℚ)
  | nan
  | inf
  | ninf
  deriving DecidableEq

/-- Numpy elementwise division of an array entry by an integer count
(`p_xx_tot /= cnt`, `collect.py` lines 375, 590, 591): `0/0` is `nan`,
`x/0` is signed infinity, and no exception is raised. -/
def npDiv (x : ℚ) (c : ℕ) : NpVal :=
  if c = 0 then
    if x = 0 then NpVal.nan else if 0 < x then NpVal.inf else NpVal.ninf
  else NpVal.fin (x / (c : ℚ))

/-- Numpy multiplication of an array entry by a finite scalar. -/
def npMulQ (v : NpVal) (q : ℚ) : NpVal :=
  match v with
  | NpVal.fin x => NpVal.fin (x * q)
  | NpVal.nan => NpVal.nan
  | NpVal.inf => if 0 < q then NpVal.inf else if q < 0 then NpVal.ninf else NpVal.nan
  | NpVal.ninf => if 0 < q then NpVal.ninf else if q < 0 then NpVal.inf else NpVal.nan

/-- Numpy division of an array entry by a finite scalar. -/
def npDivQ (v : NpVal) (q : ℚ) : NpVal :=
  if q = 0 then
    match v with
    | NpVal.fin x => if x = 0 then NpVal.nan else if 0 < x then NpVal.inf else NpVal.ninf
    | NpVal.nan => NpVal.nan
    | NpVal.inf => NpVal.inf
    | NpVal.ninf => NpVal.ninf
  else
    match v with
    | NpVal.fin x => NpVal.fin (x / q)
    | NpVal.nan => NpVal.nan
    | NpVal.inf => if 0 < q then NpVal.inf else NpVal.ninf
    | NpVal.ninf => if 0 < q then NpVal.ninf else NpVal.inf

/-- `np.fft.fftshift` on a one-dimensional array of length `n`: a circular
rotation moving entry `k` to position `(k + n/2) % n`, realized (as numpy
does with `np.roll(x, n//2)`) by splitting off the last `n - n/2` entries. -/
def fftshift (v : List α) : List α :=
  v.drop (v.length - v.length / 2) ++ v.take (v.length - v.length / 2)

/-- Elementwise sum of two equal-length numpy arrays (`p_xx_tot += p_xx`). -/
def vadd (a b : List ℚ) : List ℚ := List.zipWith (· + ·) a b

/-- `np.zeros(n)`. -/
def vzeros (n : ℕ) : List ℚ := List.replicate n 0

/-- Elementwise sum of a list of length-`n` numpy arrays, starting from
`np.zeros(n)` as the accumulation loops of `collect.py` do. -/
def vsum (n : ℕ) (l : List (List ℚ)) : List ℚ := l.foldl vadd (vzeros n)

/-- Window correction factor, `collect.py` lines 400, 620, 621:
`(win.sum()**2) / (win*win).sum()`. -/
def winCorr (w : List ℚ) : ℚ := w.sum ^ 2 / (w.map (fun x => x * x)).sum

/-- Modelled from the spec: the bounded callback stream of the Sample Source
(`sdr.read_samples_async` bounded by `rtlsdr.helpers.limit_calls`, an
external collaborator of this module).  The spec states that the callback is
invoked once per delivered block and that the stream stops once the call
budget is exhausted, so invocation `k` (1-based) is processed exactly when
`k ≤ max_calls`; the number of processed blocks is therefore `⌊max_calls⌋`
for a nonnegative budget and `0` for a negative one. -/
def limitCallsCount (budget : ℚ) : ℕ := (⌊budget⌋).toNat

/-- Externally visible events a driver can perform on its collaborators. -/
inductive Ev where
  | openSdr
  | closeSdr
  | setFreq (f : ℚ)
  | gpioDir
  | gpioSet (lvl : ℕ)
  | readBlock
  | saveFile
  deriving DecidableEq

/-- Python exception classes raised by the embedded code paths. -/
inductive PyErr where
  | assertionError
  | zeroDivisionError
  | hardwareError
  | nameError
  | ioError
  deriving DecidableEq

deriving instance DecidableEq for Except

/-- Outcome of one driver call: the trace of external events performed, and
either the returned value or the exception that propagated to the caller. -/
structure RunOut (α : Type) where
  trace : List Ev
  result : Except PyErr α

/-- Boolean test for a successful `Except` outcome. -/
def isOkE : Except PyErr α → Bool
  | Except.ok _ => true
  | Except.error _ => false

/-- External collaborators and environment oracles for one driver call. -/
structure Ext where
  /-- frequency axis returned by `scipy.signal.welch` for a block. -/
  welchF : List IQ → List ℚ
  /-- power spectrum returned by `scipy.signal.welch` for a block. -/
  welchP : List IQ → List ℚ
  /-- `scipy.signal.get_window(WINDOW, nperseg)`. -/
  getWindow : ℕ → List ℚ
  /-- the IQ block delivered by the `k`-th successful `read_samples` call. -/
  src : ℕ → List IQ
  /-- `time.time()` before the `i`-th block. -/
  clock : ℕ → ℚ
  /-- whether opening the device (`get_sdr`) succeeds. -/
  openOk : Bool
  /-- whether the `k`-th block read succeeds. -/
  readOk : ℕ → Bool
  /-- whether `np.save` succeeds. -/
  saveOk : Bool
  /-- sample rate `sdr.rs` of a caller-supplied, already-open handle. -/
  providedRs : ℚ

/-- Shared driver shell: the `try/…/except/raise/finally` skeleton common to
all four drivers (`collect.py` lines 65-128, 185-264, 309-415, 487-638).
When no `sdr` argument was passed the driver opens one and sets `close_sdr`;
the `finally` clause then closes the handle on every exit path (in addition
to any close the body itself performed).  If the open itself fails, the
local `sdr` is still `None` and the `finally` clause closes nothing.  A
caller-supplied handle is never closed. -/
def wrapRun (sdrProvided openOk : Bool) (body : Bool → RunOut α) : RunOut α :=
  if sdrProvided then body false
  else if openOk then
    let b := body true
    ⟨Ev.openSdr :: (b.trace ++ [Ev.closeSdr]), b.result⟩
  else ⟨[], Except.error PyErr.hardwareError⟩

/-- Body of `run_total_power_int` (`collect.py` lines 66-121) after the
handle is settled: `N = int(sdr.rs * t_int)` (with `sdr.rs` being the `rate`
argument when the driver opened the device, and the caller-supplied handle's
rate otherwise); the callback decorated by `helpers.limit_calls(N / num_samp)`
reads one block per invocation, DC-compensates it and accumulates its total
power into `p_tot` while counting invocations in `cnt`; afterwards
`p_avg = p_tot / (num_samp * cnt)` — a Python scalar division, which raises
`ZeroDivisionError` when `num_samp * cnt == 0` (as does the call-budget
expression `N / num_samp` when `num_samp == 0`); finally, `if close_sdr:
sdr.close()` inside the body.  A failing block read propagates out of the
body. -/
def totalPowerBody (E : Ext) (num_samp : ℕ) (rs t_int : ℚ)
    (close_sdr : Bool) : RunOut ℚ :=
  let N : ℤ := pyInt (rs * t_int)
  if num_samp = 0 then ⟨[], Except.error PyErr.zeroDivisionError⟩
  else
    let cnt : ℕ := limitCallsCount ((N : ℚ) / (num_samp : ℚ))
    match (List.range cnt).find? (fun k => !E.readOk k) with
    | some k => ⟨List.replicate k Ev.readBlock, Except.error PyErr.hardwareError⟩
    | none =>
      let p_tot : ℚ := ((List.range cnt).map (fun k => blockPower (dcComp (E.src k)))).sum
      if (num_samp : ℚ) * (cnt : ℚ) = 0 then
        ⟨List.replicate cnt Ev.readBlock, Except.error PyErr.zeroDivisionError⟩
      else
        ⟨List.replicate cnt Ev.readBlock ++ (if close_sdr then [Ev.closeSdr] else []),
         Except.ok (p_tot / ((num_samp : ℚ) * (cnt : ℚ)))⟩

/-- `run_total_power_int(num_samp, gain, rate, fc, t_int, sdr=None)`,
`collect.py` lines 30-130.  `gain` and `fc` only configure the hardware. -/
def run_total_power_int (E : Ext) (num_samp : ℕ) (gain rate fc t_int : ℚ)
    (sdrProvided : Bool) : RunOut ℚ :=
  wrapRun sdrProvided E.openOk
    (fun close_sdr =>
      totalPowerBody E num_samp (if sdrProvided then E.providedRs else rate) t_int close_sdr)

/-- GPIO level used for block `i` of `dicke`: the `flipflop` variable starts
at `1` and toggles after every block (`collect.py` lines 210, 215-218, 228),
so block `i` is acquired with noise level `1` when `i` is even. -/
def dickeFlag (i : ℕ) : ℕ := if i % 2 = 0 then 1 else 0

/-- Return value of `dicke`: parallel per-block timestamps, total powers and
noise-switch flags. -/
structure DickeOut where
  ts : List ℚ
  ps : List ℚ
  noise_on : List ℕ
  deriving DecidableEq

/-- Body of `dicke` (`collect.py` lines 186-257): the handle is retuned
(`sdr.rs`, `sdr.fc`, `sdr.gain` are set even for a caller-supplied handle),
GPIO pin 4 is configured as an output, and for each `i` in
`range(N // num_samp)` the GPIO bit is set to the current flipflop value,
one block is read, DC-compensated, and its total power appended together
with the timestamp and the flag.  After the loop `np.save` writes the
three-row array to a file whose name uses `time_str` — a variable assigned
only inside the loop, so a zero-iteration loop raises `NameError` there —
and only then, and only `if close_sdr:`, is the GPIO reset to `0` and the
handle closed inside the body.  `range` of a nonpositive `N // num_samp` is
empty, and `num_samp == 0` raises `ZeroDivisionError` at `N // num_samp`. -/
def dickeBody (E : Ext) (num_samp : ℕ) (rate fc t : ℚ)
    (close_sdr : Bool) : RunOut DickeOut :=
  let pre : List Ev := [Ev.setFreq fc, Ev.gpioDir]
  let N : ℤ := pyInt (rate * t)
  if num_samp = 0 then ⟨pre, Except.error PyErr.zeroDivisionError⟩
  else
    let cnt : ℕ := (N.fdiv (num_samp : ℤ)).toNat
    match (List.range cnt).find? (fun k => !E.readOk k) with
    | some k =>
      ⟨pre ++ ((List.range k).flatMap (fun i => [Ev.gpioSet (dickeFlag i), Ev.readBlock]))
           ++ [Ev.gpioSet (dickeFlag k)],
       Except.error PyErr.hardwareError⟩
    | none =>
      let events := pre ++ ((List.range cnt).flatMap
        (fun i => [Ev.gpioSet (dickeFlag i), Ev.readBlock]))
      if cnt = 0 then ⟨events, Except.error PyErr.nameError⟩
      else if !E.saveOk then ⟨events, Except.error PyErr.ioError⟩
      else
        ⟨events ++ [Ev.saveFile] ++ (if close_sdr then [Ev.gpioSet 0, Ev.closeSdr] else []),
         Except.ok ⟨(List.range cnt).map E.clock,
                    (List.range cnt).map (fun i => blockPower (dcComp (E.src i))),
                    (List.range cnt).map dickeFlag⟩⟩

/-- `dicke(num_samp, gain, rate, fc, t, sdr=None, plot=False)`, `collect.py`
lines 133-266, with `plot=False` (the plotting branch is an excluded
visualization convenience). -/
def dicke (E : Ext) (num_samp : ℕ) (gain rate fc t : ℚ)
    (sdrProvided : Bool) : RunOut DickeOut :=
  wrapRun sdrProvided E.openOk (fun close_sdr => dickeBody E num_samp rate fc t close_sdr)

/-- Return value of `run_spectrum_int`: the frequency axis and the power
spectral density. -/
structure SpecOut where
  freqs : List ℚ
  p_avg_hz : List NpVal
  deriving DecidableEq

/-- Body of `run_spectrum_int` (`collect.py` lines 310-408): the handle is
retuned, `N = int(sdr.rs * t_int)` with `sdr.rs = rate`,
`num_loops = int(N / num_samp) + 1` (raising `ZeroDivisionError` when
`num_samp == 0`), and `num_loops` blocks are read; each is DC-compensated,
its periodogram from `welch` is accumulated into `p_xx_tot` (which starts at
`np.zeros(nbins)`) while `freqs` is overwritten with the last `welch`
frequency axis and `cnt` counts the loops.  Then `p_xx_tot /= cnt` (numpy:
`nan`s when `cnt == 0`, no exception), both arrays are `fftshift`ed, `fc` is
added to the frequency axis, and the power is scaled by
`(win.sum()**2)/(win*win).sum() / rate`; at last `if close_sdr:
sdr.close()` inside the body. -/
def spectrumBody (E : Ext) (num_samp nbins nperseg : ℕ) (rate fc t_int : ℚ)
    (close_sdr : Bool) : RunOut SpecOut :=
  let pre : List Ev := [Ev.setFreq fc]
  let N : ℤ := pyInt (rate * t_int)
  if num_samp = 0 then ⟨pre, Except.error PyErr.zeroDivisionError⟩
  else
    let num_loops : ℤ := pyInt ((N : ℚ) / (num_samp : ℚ)) + 1
    let cnt : ℕ := num_loops.toNat
    match (List.range cnt).find? (fun k => !E.readOk k) with
    | some k => ⟨pre ++ List.replicate k Ev.readBlock, Except.error PyErr.hardwareError⟩
    | none =>
      let p_xx_tot := vsum nbins ((List.range cnt).map (fun j => E.welchP (dcComp (E.src j))))
      let p_avg := p_xx_tot.map (fun x => npDiv x cnt)
      let fr0 := match (List.range cnt).getLast? with
        | none => vzeros nbins
        | some j => E.welchF (dcComp (E.src j))
      let freqs := (fftshift fr0).map (fun x => x + fc)
      let win := E.getWindow nperseg
      let p_avg_hz := (fftshift p_avg).map (fun v => npDivQ (npMulQ v (winCorr win)) rate)
      ⟨pre ++ List.replicate cnt Ev.readBlock ++ (if close_sdr then [Ev.closeSdr] else []),
       Except.ok ⟨freqs, p_avg_hz⟩⟩

/-- `run_spectrum_int(num_samp, nbins, gain, rate, fc, t_int, sdr=None)`,
`collect.py` lines 269-417.  `nperseg` is the scipy default 256, clamped
down to `nbins` when `nbins < 256` (lines 304-307). -/
def run_spectrum_int (E : Ext) (num_samp nbins : ℕ) (gain rate fc t_int : ℚ)
    (sdrProvided : Bool) : RunOut SpecOut :=
  let nperseg := if nbins < 256 then nbins else 256
  wrapRun sdrProvided E.openOk
    (fun close_sdr => spectrumBody E num_samp nbins nperseg rate fc t_int close_sdr)

/-- `N = int(sdr.rs * t_int)`, the total number of samples to collect
(`collect.py` line 503, with `sdr.rs = rate`). -/
def totSamples (rate t_int : ℚ) : ℤ := pyInt (rate * t_int)

/-- `N_dwell = int(sdr.rs * (1.0 / fswitch))`, the number of samples in one
frequency dwell (`collect.py` line 505). -/
def dwellSamples (rate fswitch : ℚ) : ℤ := pyInt (rate * (1 / fswitch))

/-- `num_loops = N_dwell // num_samp`, the number of SDR calls per dwell
(`collect.py` line 507; Python `//` is floor division). -/
def blocksPerDwell (rate fswitch : ℚ) (num_samp : ℕ) : ℤ :=
  (dwellSamples rate fswitch).fdiv (num_samp : ℤ)

/-- `num_dwells = N // N_dwell`, the number of dwells (`collect.py` line
509). -/
def numDwells (rate t_int fswitch : ℚ) : ℤ :=
  (totSamples rate t_int).fdiv (dwellSamples rate fswitch)

/-- The dwell schedule implicit in `run_fswitch_int`'s outer loop
(`collect.py` lines 544-551): dwell `i` is acquired on the fiducial
frequency `fc` when `i % 2 == 0` (`tick`, the PRIMARY state, marked `true`)
and on the shifted frequency `fthrow` otherwise (ALTERNATE, `false`), and
each dwell performs `blocksPerDwell` SDR calls. -/
def dwellPlan (rate t_int fswitch : ℚ) (num_samp : ℕ) : List (Bool × ℤ) :=
  (pyRange (numDwells rate t_int fswitch)).map
    (fun i => (i % 2 == 0, blocksPerDwell rate fswitch num_samp))

/-- Linearized indices of the block reads that happen in the even (`tick`,
fiducial-frequency) dwells of `run_fswitch_int`, when there are `D` dwells
of `L` reads each: dwell `i` performs reads `i*L` to `i*L + L - 1`. -/
def fsOnIdx (D L : ℕ) : List ℕ :=
  ((List.range D).filter (fun i => i % 2 == 0)).flatMap
    (fun i => (List.range L).map (fun j => i * L + j))

/-- Linearized indices of the block reads in the odd (shifted-frequency)
dwells of `run_fswitch_int`. -/
def fsOffIdx (D L : ℕ) : List ℕ :=
  ((List.range D).filter (fun i => i % 2 == 1)).flatMap
    (fun i => (List.range L).map (fun j => i * L + j))

/-- Return value of `run_fswitch_int`: the frequency axis and PSD around the
fiducial frequency, then around the shifted frequency. -/
structure FswitchOut where
  freqs_on : List ℚ
  p_avg_on_hz : List NpVal
  freqs_off : List ℚ
  p_avg_off_hz : List NpVal
  deriving DecidableEq

/-- Body of `run_fswitch_int` (`collect.py` lines 488-631): the handle is
retuned to `fc`, the dwell bookkeeping `N`, `N_dwell`, `num_loops`,
`num_dwells` is computed (`num_loops` raising `ZeroDivisionError` when
`num_samp == 0`, `num_dwells` when `N_dwell == 0`), and for each dwell
`i < num_dwells` the SDR is tuned to `fc` (even `i`) or `fthrow` (odd `i`)
and `num_loops` blocks are read; each block is DC-compensated and its
`welch` periodogram accumulated into `p_xx_on`/`p_xx_off` (starting from
`np.zeros(nbins)`) with counters `cntOn`/`cntOff`, while
`freqs_on`/`freqs_off` keep the last `welch` frequency axis of the
respective state.  After the loops `p_xx_on /= cntOn` and
`p_xx_off /= cntOff` (numpy: silently `nan` when a counter is zero), both
spectra and both axes are `fftshift`ed, `fc` is added to the on-axis and
`fthrow` to the off-axis, and both spectra are scaled by the same factor
`(win.sum()**2)/(win*win).sum() / rate`; finally `if close_sdr:
sdr.close()` inside the body. -/
def fswitchBody (E : Ext) (num_samp nbins nperseg : ℕ)
    (rate fc fthrow t_int fswitch : ℚ) (close_sdr : Bool) : RunOut FswitchOut :=
  let pre : List Ev := [Ev.setFreq fc]
  if num_samp = 0 then ⟨pre, Except.error PyErr.zeroDivisionError⟩
  else if dwellSamples rate fswitch = 0 then ⟨pre, Except.error PyErr.zeroDivisionError⟩
  else
    let D : ℕ := (numDwells rate t_int fswitch).toNat
    let L : ℕ := (blocksPerDwell rate fswitch num_samp).toNat
    match (List.range (D * L)).find? (fun r => !E.readOk r) with
    | some r =>
      ⟨pre ++ ((List.range (r / L)).flatMap
            (fun i => Ev.setFreq (if i % 2 = 0 then fc else fthrow) :: List.replicate L Ev.readBlock))
          ++ [Ev.setFreq (if (r / L) % 2 = 0 then fc else fthrow)]
          ++ List.replicate (r % L) Ev.readBlock,
       Except.error PyErr.hardwareError⟩
    | none =>
      let onIdx := fsOnIdx D L
      let offIdx := fsOffIdx D L
      let p_xx_on := vsum nbins (onIdx.map (fun r => E.welchP (dcComp (E.src r))))
      let p_xx_off := vsum nbins (offIdx.map (fun r => E.welchP (dcComp (E.src r))))
      let fOn := match onIdx.getLast? with
        | none => vzeros nbins
        | some r => E.welchF (dcComp (E.src r))
      let fOff := match offIdx.getLast? with
        | none => vzeros nbins
        | some r => E.welchF (dcComp (E.src r))
      let pAvgOn := p_xx_on.map (fun x => npDiv x onIdx.length)
      let pAvgOff := p_xx_off.map (fun x => npDiv x offIdx.length)
      let freqs_on := (fftshift fOn).map (fun x => x + fc)
      let freqs_off := (fftshift fOff).map (fun x => x + fthrow)
      let win := E.getWindow nperseg
      let pOnHz := (fftshift pAvgOn).map (fun v => npDivQ (npMulQ v (winCorr win)) rate)
      let pOffHz := (fftshift pAvgOff).map (fun v => npDivQ (npMulQ v (winCorr win)) rate)
      ⟨pre ++ ((List.range D).flatMap
            (fun i => Ev.setFreq (if i % 2 = 0 then fc else fthrow) :: List.replicate L Ev.readBlock))
          ++ (if close_sdr then [Ev.closeSdr] else []),
       Except.ok ⟨freqs_on, pOnHz, freqs_off, pOffHz⟩⟩

/-- `run_fswitch_int(num_samp, nbins, gain, rate, fc, fthrow, t_int,
fswitch=10, sdr=None)`, `collect.py` lines 420-640.  Before the `try` block
(hence before any hardware interaction) the input check
`assert t_int >= 2.0 * (1.0/fswitch)` runs (line 482); `1.0/fswitch` raises
`ZeroDivisionError` when `fswitch == 0`, and a failed assert raises
`AssertionError`, both with an empty event trace.  The `fswitch > 10`
advisory (lines 484-485) only logs a warning. -/
def run_fswitch_int (E : Ext) (num_samp nbins : ℕ)
    (gain rate fc fthrow t_int fswitch : ℚ) (sdrProvided : Bool) : RunOut FswitchOut :=
  let nperseg := if nbins < 256 then nbins else 256
  if fswitch = 0 then ⟨[], Except.error PyErr.zeroDivisionError⟩
  else if ¬ (2 * (1 / fswitch) ≤ t_int) then ⟨[], Except.error PyErr.assertionError⟩
  else
    wrapRun sdrProvided E.openOk
      (fun close_sdr =>
        fswitchBody E num_samp nbins nperseg rate fc fthrow t_int fswitch close_sdr)

/-- Concrete instantiation of the external collaborators, used to exercise
the drivers at specific inputs: a two-sample source block, a constant
four-bin periodogram, the all-ones window, an integer-valued clock, and
hardware and file operations that all succeed. -/
def extC : Ext :=
  ⟨fun _ => [10, 20, 30, 40],
   fun _ => [1, 2, 3, 4],
   fun n => List.replicate n 1,
   fun _ => [⟨1, 0⟩, ⟨0, 1⟩],
   fun i => (i : ℚ),
   true,
   fun _ => true,
   true,
   0⟩

/-- Event extractor: the frequency of a tuning event. -/
def freqOf : Ev → Option ℚ
  | Ev.setFreq f => some f
  | _ => none

/-- Event extractor: the level of a GPIO bit-set event. -/
def gpioOf : Ev → Option ℕ
  | Ev.gpioSet lvl => some lvl
  | _ => none

theorem pyInt_of_nonneg {q : ℚ} (h : 0 ≤ q) : pyInt q = ⌊q⌋ := by
  simp [pyInt, h]

theorem pyInt_nonneg {q : ℚ} (h : 0 ≤ q) : 0 ≤ pyInt q := by
  rw [pyInt_of_nonneg h]
  exact Int.floor_nonneg.mpr h

theorem toNat_intCast_ediv_natCast (a : ℤ) (b : ℕ) (ha : 0 ≤ a) :
    (a / (b : ℤ)).toNat = a.toNat / b := by
  obtain ⟨m, rfl⟩ := Int.eq_ofNat_of_zero_le ha
  rw [← Int.ofNat_ediv, Int.toNat_ofNat, Int.toNat_ofNat]

theorem pyInt_intCast_div_natCast (a : ℤ) (b : ℕ) (ha : 0 ≤ a) :
    pyInt ((a : ℚ) / (b : ℚ)) = a / (b : ℤ) := by
  rw [pyInt_of_nonneg (div_nonneg (by exact_mod_cast ha) (by positivity))]
  exact Rat.floor_intCast_div_natCast a b

theorem limitCallsCount_eval (a : ℤ) (b : ℕ) (ha : 0 ≤ a) :
    limitCallsCount ((a : ℚ) / (b : ℚ)) = a.toNat / b := by
  rw [limitCallsCount, Rat.floor_intCast_div_natCast, toNat_intCast_ediv_natCast a b ha]

theorem fftshift_length (v : List α) : (fftshift v).length = v.length := by
  simp only [fftshift, List.length_append, List.length_drop, List.length_take]
  omega

theorem fftshift_getElem? (v : List α) {k : ℕ} (hk : k < v.length) :
    (fftshift v)[(k + v.length / 2) % v.length]? = v[k]? := by
  have hs : v.length / 2 ≤ v.length := Nat.div_le_self _ _
  have hdl : (v.drop (v.length - v.length / 2)).length = v.length / 2 := by
    rw [List.length_drop]
    omega
  rcases Nat.lt_or_ge k (v.length - v.length / 2) with h | h
  · have hmod : (k + v.length / 2) % v.length = k + v.length / 2 :=
      Nat.mod_eq_of_lt (by omega)
    rw [fftshift, hmod, List.getElem?_append_right (by rw [hdl]; omega), hdl,
        Nat.add_sub_cancel, List.getElem?_take, if_pos h]
  · have hmod : (k + v.length / 2) % v.length = k + v.length / 2 - v.length := by
      rw [Nat.mod_eq_sub_mod (by omega), Nat.mod_eq_of_lt (by omega)]
    rw [fftshift, hmod, List.getElem?_append, if_pos (by rw [hdl]; omega),
        List.getElem?_drop]
    have harith : v.length - v.length / 2 + (k + v.length / 2 - v.length) = k := by omega
    rw [harith]

theorem fftshift_getD (v : List α) {k : ℕ} (hk : k < v.length) (d : α) :
    (fftshift v).getD ((k + v.length / 2) % v.length) d = v.getD k d := by
  rw [List.getD_eq_getElem?_getD, List.getD_eq_getElem?_getD, fftshift_getElem? v hk]

theorem getD_map_lt (f : α → β) {l : List α} {k : ℕ} (hk : k < l.length) (d : β) (d₀ : α) :
    (l.map f).getD k d = f (l.getD k d₀) := by
  rw [List.getD_eq_getElem?_getD, List.getD_eq_getElem?_getD, List.getElem?_map,
      List.getElem?_eq_getElem hk]
  rfl

theorem vadd_length (a b : List ℚ) : (vadd a b).length = min a.length b.length := by
  simp [vadd]

theorem vadd_getD {a b : List ℚ} {k : ℕ} (ha : k < a.length) (hb : k < b.length) :
    (vadd a b).getD k 0 = a.getD k 0 + b.getD k 0 := by
  have h : k < (vadd a b).length := by
    rw [vadd_length]
    omega
  rw [List.getD_eq_getElem?_getD, List.getD_eq_getElem?_getD, List.getD_eq_getElem?_getD,
      List.getElem?_eq_getElem h, List.getElem?_eq_getElem ha, List.getElem?_eq_getElem hb]
  simp [vadd, List.getElem_zipWith]

theorem foldl_vadd_length (l : List (List ℚ)) (acc : List ℚ)
    (h : ∀ v ∈ l, v.length = acc.length) :
    (l.foldl vadd acc).length = acc.length := by
  induction l generalizing acc with
  | nil => rfl
  | cons x xs ih =>
    have hx : x.length = acc.length := h x (by simp)
    have hlen : (vadd acc x).length = acc.length := by
      rw [vadd_length]
      omega
    rw [List.foldl_cons, ih (vadd acc x) (fun v hv => by rw [hlen]; exact h v (by simp [hv])),
        hlen]

theorem foldl_vadd_getD (l : List (List ℚ)) (acc : List ℚ) {k : ℕ} (hk : k < acc.length)
    (h : ∀ v ∈ l, v.length = acc.length) :
    (l.foldl vadd acc).getD k 0 = acc.getD k 0 + (l.map (fun v => v.getD k 0)).sum := by
  induction l generalizing acc with
  | nil => simp
  | cons x xs ih =>
    have hx : x.length = acc.length := h x (by simp)
    have hlen : (vadd acc x).length = acc.length := by
      rw [vadd_length]
      omega
    rw [List.foldl_cons,
        ih (vadd acc x) (by omega) (fun v hv => by rw [hlen]; exact h v (by simp [hv])),
        List.map_cons, List.sum_cons, vadd_getD hk (by omega)]
    ring

theorem vsum_length (n : ℕ) (l : List (List ℚ)) (h : ∀ v ∈ l, v.length = n) :
    (vsum n l).length = n := by
  have hz : (vzeros n).length = n := List.length_replicate n 0
  rw [vsum, foldl_vadd_length l (vzeros n) (fun v hv => by rw [hz]; exact h v hv), hz]

theorem vsum_getD (n : ℕ) (l : List (List ℚ)) {k : ℕ} (hk : k < n)
    (h : ∀ v ∈ l, v.length = n) :
    (vsum n l).getD k 0 = (l.map (fun v => v.getD k 0)).sum := by
  have hz : (vzeros n).length = n := List.length_replicate n 0
  rw [vsum, foldl_vadd_getD l (vzeros n) (by omega) (fun v hv => by rw [hz]; exact h v hv)]
  simp [vzeros, List.getD_eq_getElem?_getD, List.getElem?_replicate, hk]

theorem sum_map_sub (l : List ℚ) (c : ℚ) :
    (l.map (fun x => x - c)).sum = l.sum - l.length * c := by
  induction l with
  | nil => simp
  | cons x xs ih =>
    simp only [List.map_cons, List.sum_cons, ih, List.length_cons]
    push_cast
    ring

theorem filterMap_replicate_none {f : α → Option β} {a : α} (h : f a = none) (n : ℕ) :
    List.filterMap f (List.replicate n a) = [] := by
  induction n with
  | zero => rfl
  | succ m ih => rw [List.replicate_succ, List.filterMap_cons, h, ih]

theorem find?_range_none {p : ℕ → Bool} (h : ∀ k, p k = false) (n : ℕ) :
    (List.range n).find? p = none :=
  List.find?_eq_none.mpr (fun x _ => by simp [h x])

theorem sum_map_mean_sub (bl : List IQ) (g : IQ → ℚ) (h : bl ≠ []) :
    (bl.map (fun z => g z - (bl.map g).sum / (bl.length : ℚ))).sum = 0 := by
  have hn : (bl.length : ℚ) ≠ 0 := by
    have h0 : bl.length ≠ 0 := by simpa [List.length_eq_zero] using h
    exact_mod_cast h0
  have h1 : bl.map (fun z => g z - (bl.map g).sum / (bl.length : ℚ))
      = (bl.map g).map (fun x => x - (bl.map g).sum / (bl.length : ℚ)) := by
    rw [List.map_map]
    rfl
  rw [h1, sum_map_sub, List.length_map]
  field_simp

/-- Claim C9: on any finite nonempty sample block, the DC-compensation step
returns a block of identical length whose real parts and imaginary parts
each sum — hence mean — to zero, obtained by subtracting the block's
real-part mean from every real component and the block's imaginary-part mean
from every imaginary component independently; it is a pure transformation of
the block. -/
theorem claim9_dc_compensation (bl : List IQ) (h : bl ≠ []) :
    (dcComp bl).length = bl.length ∧
    ((dcComp bl).map IQ.re).sum = 0 ∧
    ((dcComp bl).map IQ.im).sum = 0 := by
  refine ⟨by simp [dcComp], ?_, ?_⟩
  · simp only [dcComp, List.map_map]
    exact sum_map_mean_sub bl IQ.re h
  · simp only [dcComp, List.map_map]
    exact sum_map_mean_sub bl IQ.im h

theorem claim9_witness :
    (dcComp [⟨1, 0⟩, ⟨0, 1⟩]).length = ([⟨1, 0⟩, ⟨0, 1⟩] : List IQ).length ∧
    ((dcComp [⟨1, 0⟩, ⟨0, 1⟩]).map IQ.re).sum = 0 ∧
    ((dcComp [⟨1, 0⟩, ⟨0, 1⟩]).map IQ.im).sum = 0 :=
  claim9_dc_compensation [⟨1, 0⟩, ⟨0, 1⟩] (by simp)

/-- Number of callback invocations processed by the bounded stream of
`run_total_power_int` when the driver opened the device: the call budget is
`N / num_samp` with `N = int(rate * t_int)` (`collect.py` lines 83, 97). -/
def tpCount (num_samp : ℕ) (rate t_int : ℚ) : ℕ :=
  limitCallsCount ((pyInt (rate * t_int) : ℚ) / (num_samp : ℚ))

theorem run_total_power_int_ok (E : Ext) (num_samp : ℕ) (gain rate fc t_int : ℚ)
    (hopen : E.openOk = true) (hread : ∀ k, E.readOk k = true)
    (hns : num_samp ≠ 0) (hcnt : tpCount num_samp rate t_int ≠ 0) :
    (run_total_power_int E num_samp gain rate fc t_int false).result
      = Except.ok ((((List.range (tpCount num_samp rate t_int)).map
            (fun k => blockPower (dcComp (E.src k)))).sum)
          / ((num_samp : ℚ) * (tpCount num_samp rate t_int : ℚ))) := by
  have hnz : ((num_samp : ℚ) * (tpCount num_samp rate t_int : ℚ)) ≠ 0 := by
    have h1 : (num_samp : ℚ) ≠ 0 := Nat.cast_ne_zero.mpr hns
    have h2 : ((tpCount num_samp rate t_int : ℕ) : ℚ) ≠ 0 := Nat.cast_ne_zero.mpr hcnt
    exact mul_ne_zero h1 h2
  simp only [run_total_power_int, wrapRun, hopen, Bool.false_eq_true, if_false, if_true,
    totalPowerBody, hns, tpCount]
  rw [find?_range_none (fun k => by simp [hread k]) _]
  simp only [tpCount] at hnz
  rw [if_neg hnz]

/-- Claim C8: the total-power driver returns the accumulated sum, over all
acquired blocks, of per-sample `I^2 + Q^2` on DC-compensated blocks, divided
by `num_samp * count`; consequently, when every block contributes the same
total power `p`, the average is `p / num_samp` no matter how `p` is
distributed inside the blocks. -/
theorem claim8_power_accumulator (E : Ext) (num_samp : ℕ) (gain rate fc t_int : ℚ)
    (p : ℚ) (hopen : E.openOk = true) (hread : ∀ k, E.readOk k = true)
    (hns : num_samp ≠ 0) (hcnt : tpCount num_samp rate t_int ≠ 0) :
    (run_total_power_int E num_samp gain rate fc t_int false).result
      = Except.ok ((((List.range (tpCount num_samp rate t_int)).map
            (fun k => blockPower (dcComp (E.src k)))).sum)
          / ((num_samp : ℚ) * (tpCount num_samp rate t_int : ℚ))) ∧
    ((∀ k < tpCount num_samp rate t_int, blockPower (dcComp (E.src k)) = p) →
      (run_total_power_int E num_samp gain rate fc t_int false).result
        = Except.ok (p / (num_samp : ℚ))) := by
  refine ⟨run_total_power_int_ok E num_samp gain rate fc t_int hopen hread hns hcnt, ?_⟩
  intro hp
  rw [run_total_power_int_ok E num_samp gain rate fc t_int hopen hread hns hcnt]
  have hsum : ((List.range (tpCount num_samp rate t_int)).map
      (fun k => blockPower (dcComp (E.src k)))).sum
      = (tpCount num_samp rate t_int : ℚ) * p := by
    rw [List.map_congr_left (fun a ha => hp a (List.mem_range.mp ha)), List.map_const',
        List.length_range, List.sum_replicate, nsmul_eq_mul]
  rw [hsum]
  congr 1
  have h1 : (num_samp : ℚ) ≠ 0 := Nat.cast_ne_zero.mpr hns
  have h2 : ((tpCount num_samp rate t_int : ℕ) : ℚ) ≠ 0 := Nat.cast_ne_zero.mpr hcnt
  field_simp
  ring

theorem claim8_witness :
    (run_total_power_int extC 4 0 8 0 1 false).result
      = Except.ok ((1 : ℚ) / ((4 : ℕ) : ℚ)) :=
  (claim8_power_accumulator extC 4 0 8 0 1 1 rfl (fun _ => rfl) (by norm_num)
    (by norm_num [tpCount, limitCallsCount, pyInt])).2
    (fun k _ => by norm_num [blockPower, dcComp, extC, IQ.re, IQ.im])

theorem spectrum_cnt_eval (a : ℤ) (b : ℕ) (ha : 0 ≤ a) :
    (pyInt ((a : ℚ) / (b : ℚ)) + 1).toNat = a.toNat / b + 1 := by
  rw [pyInt_intCast_div_natCast a b ha]
  have h1 : 0 ≤ a / (b : ℤ) := Int.ediv_nonneg ha (by positivity)
  have h2 := toNat_intCast_ediv_natCast a b ha
  omega

/-- Claim C4: with `N = int(rate * t_int)`, the plain total-power driver
acquires exactly `N // num_samp` sample blocks — the bounded callback-stream
call budget `N / num_samp` — while the plain spectral driver acquires
exactly `N // num_samp + 1` blocks (`num_loops = int(N / num_samp) + 1`),
one extra block so the requested integration time is met or exceeded. -/
theorem claim4_block_counts (E : Ext) (num_samp nbins : ℕ) (gain rate fc t_int : ℚ)
    (hopen : E.openOk = true) (hread : ∀ k, E.readOk k = true)
    (hns : num_samp ≠ 0) (ht : 0 ≤ rate * t_int) :
    (run_total_power_int E num_samp gain rate fc t_int false).trace.count Ev.readBlock
      = (pyInt (rate * t_int)).toNat / num_samp ∧
    (run_spectrum_int E num_samp nbins gain rate fc t_int false).trace.count Ev.readBlock
      = (pyInt (rate * t_int)).toNat / num_samp + 1 := by
  have hN : 0 ≤ pyInt (rate * t_int) := pyInt_nonneg ht
  constructor
  · simp only [run_total_power_int, wrapRun, Bool.false_eq_true, if_false, hopen, if_true,
      totalPowerBody, hns, Bool.false_eq_true]
    rw [find?_range_none (fun k => by simp [hread k]) _]
    rw [limitCallsCount_eval _ _ hN]
    split
    · next k heq => exact absurd heq (by simp)
    · split <;>
        simp [List.count_cons, List.count_append, List.count_replicate, List.count_singleton]
  · simp only [run_spectrum_int, wrapRun, Bool.false_eq_true, if_false, hopen, if_true,
      spectrumBody, hns]
    rw [find?_range_none (fun k => by simp [hread k]) _]
    rw [spectrum_cnt_eval _ _ hN]
    split
    · next k heq => exact absurd heq (by simp)
    · split <;>
        simp [List.count_cons, List.count_append, List.count_replicate, List.count_singleton]

theorem claim4_witness :
    (run_total_power_int extC 4 0 8 0 1 false).trace.count Ev.readBlock
      = (pyInt ((8 : ℚ) * 1)).toNat / 4 ∧
    (run_spectrum_int extC 4 4 0 8 0 1 false).trace.count Ev.readBlock
      = (pyInt ((8 : ℚ) * 1)).toNat / 4 + 1 :=
  claim4_block_counts extC 4 4 0 8 0 1 rfl (fun _ => rfl) (by norm_num) (by norm_num)

theorem nat_div_div_mul_le (a d s : ℕ) (hs : 0 < s) : a / d * (d / s) ≤ a / s := by
  rcases Nat.eq_zero_or_pos d with hd | _
  · subst hd
    simp
  · rw [Nat.le_div_iff_mul_le hs]
    calc a / d * (d / s) * s = a / d * (d / s * s) := by ring
    _ ≤ a / d * d := Nat.mul_le_mul_left _ (Nat.div_mul_le_self d s)
    _ ≤ a := Nat.div_mul_le_self a d

theorem fdiv_toNat_eq (a b : ℤ) (ha : 0 ≤ a) (hb : 0 ≤ b) :
    a.fdiv b = ((a.toNat / b.toNat : ℕ) : ℤ) := by
  rw [Int.fdiv_eq_ediv a hb, Int.ofNat_ediv, Int.toNat_of_nonneg ha, Int.toNat_of_nonneg hb]

/-- Claim C7: for a valid switched configuration the dwell plan never
exceeds the requested sample budget — the total number of blocks acquired
across all dwells, `num_dwells * blocks_per_dwell` (which is also the sum of
the per-dwell block counts of the `dwellPlan`), is at most
`N // num_samp` with `N = int(rate * t_int)`. -/
theorem claim7_sample_budget (num_samp : ℕ) (rate t_int fswitch : ℚ)
    (hns : 1 ≤ num_samp) (hfs : 0 < fswitch) (hrate : 0 < rate)
    (ht : 2 / fswitch ≤ t_int) :
    numDwells rate t_int fswitch * blocksPerDwell rate fswitch num_samp
      ≤ (totSamples rate t_int).fdiv (num_samp : ℤ) ∧
    ((dwellPlan rate t_int fswitch num_samp).map Prod.snd).sum
      = numDwells rate t_int fswitch * blocksPerDwell rate fswitch num_samp := by
  have htpos : 0 < t_int := lt_of_lt_of_le (by positivity) ht
  have hN : 0 ≤ totSamples rate t_int := pyInt_nonneg (by positivity)
  have hd : 0 ≤ dwellSamples rate fswitch := pyInt_nonneg (by positivity)
  have hnsZ : (0 : ℤ) ≤ (num_samp : ℤ) := by positivity
  have hDn : 0 ≤ numDwells rate t_int fswitch := Int.fdiv_nonneg hN hd
  constructor
  · rw [numDwells, blocksPerDwell, fdiv_toNat_eq _ _ hN hd, fdiv_toNat_eq _ _ hd hnsZ,
      fdiv_toNat_eq _ _ hN hnsZ]
    have key := nat_div_div_mul_le (totSamples rate t_int).toNat
      (dwellSamples rate fswitch).toNat ((num_samp : ℤ)).toNat
      (by simpa using Nat.pos_of_ne_zero (by omega))
    exact_mod_cast key
  · rw [dwellPlan, List.map_map]
    show ((pyRange (numDwells rate t_int fswitch)).map
        (fun _ : ℕ => blocksPerDwell rate fswitch num_samp)).sum = _
    rw [List.map_const', pyRange, List.length_range, List.sum_replicate, nsmul_eq_mul,
      Int.toNat_of_nonneg hDn]

theorem claim7_witness :
    numDwells 100 1 10 * blocksPerDwell 100 10 2 ≤ (totSamples 100 1).fdiv ((2 : ℕ) : ℤ) ∧
    ((dwellPlan 100 1 10 2).map Prod.snd).sum = numDwells 100 1 10 * blocksPerDwell 100 10 2 :=
  claim7_sample_budget 2 100 1 10 (by norm_num) (by norm_num) (by norm_num) (by norm_num)

theorem fswitchBody_ne_assertion (E : Ext) (ns nbins np : ℕ)
    (rate fc fthrow t fsw : ℚ) (cs : Bool) :
    (fswitchBody E ns nbins np rate fc fthrow t fsw cs).result
      ≠ Except.error PyErr.assertionError := by
  unfold fswitchBody
  split
  · simp
  · split
    · simp
    · rcases hfind : List.find? (fun r => !E.readOk r)
          (List.range ((numDwells rate t fsw).toNat * (blocksPerDwell rate fsw ns).toNat))
        with _ | r <;> simp [hfind]

theorem wrapRun_result (s o : Bool) (body : Bool → RunOut α) :
    (wrapRun s o body).result = (body false).result ∨
    (wrapRun s o body).result = (body true).result ∨
    (wrapRun s o body).result = Except.error PyErr.hardwareError := by
  unfold wrapRun
  split
  · exact Or.inl rfl
  · split
    · exact Or.inr (Or.inl rfl)
    · exact Or.inr (Or.inr rfl)

/-- Claim C6: for `t_int < 2 / fswitch` the frequency-switched driver fails
its input check before any hardware interaction — the returned event trace
is empty (nothing opened, tuned or read) and an `AssertionError` propagates
with no partial result — while for `t_int ≥ 2 / fswitch` no assertion error
is raised. -/
theorem claim6_config_check (E : Ext) (num_samp nbins : ℕ)
    (gain rate fc fthrow fswitch : ℚ) (sdrProvided : Bool) (hfs : 0 < fswitch) :
    (∀ t_int : ℚ, t_int < 2 / fswitch →
      run_fswitch_int E num_samp nbins gain rate fc fthrow t_int fswitch sdrProvided
        = ⟨[], Except.error PyErr.assertionError⟩) ∧
    (∀ t_int : ℚ, 2 / fswitch ≤ t_int →
      (run_fswitch_int E num_samp nbins gain rate fc fthrow t_int fswitch sdrProvided).result
        ≠ Except.error PyErr.assertionError) := by
  have hfs0 : fswitch ≠ 0 := ne_of_gt hfs
  have h2 : 2 * (1 / fswitch) = 2 / fswitch := by ring
  constructor
  · intro t ht
    simp only [run_fswitch_int]
    rw [if_neg hfs0, if_pos (by rw [h2]; exact not_le.mpr ht)]
  · intro t ht
    simp only [run_fswitch_int]
    rw [if_neg hfs0, if_neg (by rw [h2]; exact not_not_intro ht)]
    rcases wrapRun_result sdrProvided E.openOk
        (fun close_sdr => fswitchBody E num_samp nbins
          (if nbins < 256 then nbins else 256) rate fc fthrow t fswitch close_sdr)
      with h | h | h <;> rw [h]
    · exact fswitchBody_ne_assertion E num_samp nbins _ rate fc fthrow t fswitch false
    · exact fswitchBody_ne_assertion E num_samp nbins _ rate fc fthrow t fswitch true
    · simp

theorem claim6_witness :
    run_fswitch_int extC 2 4 0 100 1420 1421 (1 / 10) 10 false
      = ⟨[], Except.error PyErr.assertionError⟩ ∧
    (run_fswitch_int extC 2 4 0 100 1420 1421 1 10 false).result
      ≠ Except.error PyErr.assertionError :=
  ⟨(claim6_config_check extC 2 4 0 100 1420 1421 10 false (by norm_num)).1 (1 / 10) (by norm_num),
   (claim6_config_check extC 2 4 0 100 1420 1421 10 false (by norm_num)).2 1 (by norm_num)⟩

theorem wrapRun_close_count (s o : Bool) (body : Bool → RunOut α)
    (hbody : ∀ cs, (body cs).trace.count Ev.closeSdr
        = if (isOkE (body cs).result && cs) = true then 1 else 0) :
    (wrapRun s o body).trace.count Ev.closeSdr
      = if s = true then 0
        else if o = false then 0
        else if isOkE (wrapRun s o body).result = true then 2 else 1 := by
  cases s with
  | true =>
    simp only [wrapRun, if_pos rfl, if_true]
    rw [hbody false]
    simp
  | false =>
    cases o with
    | false => simp [wrapRun]
    | true =>
      simp only [wrapRun, Bool.false_eq_true, if_false, if_true]
      rw [List.count_cons, List.count_append, hbody true, List.count_singleton]
      cases hok : isOkE (body true).result <;> simp [hok]

theorem totalPowerBody_close_count (E : Ext) (ns : ℕ) (rs t : ℚ) (cs : Bool) :
    (totalPowerBody E ns rs t cs).trace.count Ev.closeSdr
      = if (isOkE (totalPowerBody E ns rs t cs).result && cs) = true then 1 else 0 := by
  unfold totalPowerBody
  split
  · simp [isOkE]
  · rcases hfind : List.find? (fun k => !E.readOk k)
        (List.range (limitCallsCount ((pyInt (rs * t) : ℚ) / (ns : ℚ))))
      with _ | k <;> simp only [hfind]
    · split
      · simp [isOkE, List.count_replicate]
      · cases cs <;>
          simp [isOkE, List.count_append, List.count_replicate, List.count_singleton]
    · simp [isOkE, List.count_replicate]

theorem spectrumBody_close_count (E : Ext) (ns nbins np : ℕ) (rate fc t : ℚ) (cs : Bool) :
    (spectrumBody E ns nbins np rate fc t cs).trace.count Ev.closeSdr
      = if (isOkE (spectrumBody E ns nbins np rate fc t cs).result && cs) = true then 1 else 0 := by
  unfold spectrumBody
  split
  · simp [isOkE]
  · rcases hfind : List.find? (fun k => !E.readOk k)
        (List.range (pyInt ((pyInt (rate * t) : ℚ) / (ns : ℚ)) + 1).toNat)
      with _ | k <;> simp only [hfind]
    · cases cs <;>
        simp [isOkE, List.count_cons, List.count_append, List.count_replicate,
          List.count_singleton]
    · simp [isOkE, List.count_cons, List.count_append, List.count_replicate]

theorem run_total_power_close_count (E : Ext) (num_samp : ℕ)
    (gain rate fc t_int : ℚ) (sdrProvided : Bool) :
    (run_total_power_int E num_samp gain rate fc t_int sdrProvided).trace.count Ev.closeSdr
      = if sdrProvided = true then 0
        else if E.openOk = false then 0
        else if isOkE (run_total_power_int E num_samp gain rate fc t_int sdrProvided).result
            = true then 2 else 1 :=
  wrapRun_close_count sdrProvided E.openOk _
    (fun cs => totalPowerBody_close_count E num_samp
      (if sdrProvided then E.providedRs else rate) t_int cs)

theorem run_spectrum_close_count (E : Ext) (num_samp nbins : ℕ)
    (gain rate fc t_int : ℚ) (sdrProvided : Bool) :
    (run_spectrum_int E num_samp nbins gain rate fc t_int sdrProvided).trace.count Ev.closeSdr
      = if sdrProvided = true then 0
        else if E.openOk = false then 0
        else if isOkE (run_spectrum_int E num_samp nbins gain rate fc t_int sdrProvided).result
            = true then 2 else 1 :=
  wrapRun_close_count sdrProvided E.openOk _
    (fun cs => spectrumBody_close_count E num_samp nbins
      (if nbins < 256 then nbins else 256) rate fc t_int cs)

/-- Claim C5 (amended): a caller-supplied handle is never closed, and when
the open performed by the driver itself fails, nothing is closed; but after
a successful driver-side open the handle is closed once by the `finally`
clause on every error exit and twice on normal return (once by the body's
`if close_sdr: sdr.close()` and once more by the `finally` clause) — not
exactly once on every exit path as claimed. -/
theorem claim5_close_discipline (E : Ext) (num_samp nbins : ℕ)
    (gain rate fc t_int : ℚ) (sdrProvided : Bool) :
    (run_total_power_int E num_samp gain rate fc t_int sdrProvided).trace.count Ev.closeSdr
      = (if sdrProvided = true then 0
         else if E.openOk = false then 0
         else if isOkE (run_total_power_int E num_samp gain rate fc t_int sdrProvided).result
             = true then 2 else 1) ∧
    (run_spectrum_int E num_samp nbins gain rate fc t_int sdrProvided).trace.count Ev.closeSdr
      = (if sdrProvided = true then 0
         else if E.openOk = false then 0
         else if isOkE (run_spectrum_int E num_samp nbins gain rate fc t_int sdrProvided).result
             = true then 2 else 1) :=
  ⟨run_total_power_close_count E num_samp gain rate fc t_int sdrProvided,
   run_spectrum_close_count E num_samp nbins gain rate fc t_int sdrProvided⟩

/-- Claim C5 is false as stated: a concrete normal-return run of
`run_total_power_int` in which the driver opened the device closes the
handle twice, not exactly once. -/
theorem claim5_counterexample :
    (run_total_power_int extC 4 0 8 0 1 false).trace.count Ev.closeSdr = 2 ∧
    (run_total_power_int extC 4 0 8 0 1 false).trace.count Ev.closeSdr ≠ 1 := by
  have hok : (run_total_power_int extC 4 0 8 0 1 false).result
      = Except.ok ((1 : ℚ) / ((4 : ℕ) : ℚ)) :=
    (claim8_power_accumulator extC 4 0 8 0 1 1 rfl (fun _ => rfl) (by norm_num)
      (by norm_num [tpCount, limitCallsCount, pyInt])).2
      (fun k _ => by norm_num [blockPower, dcComp, extC, IQ.re, IQ.im])
  have h := run_total_power_close_count extC 4 0 8 0 1 false
  rw [hok] at h
  simp only [isOkE] at h
  refine ⟨by rw [h]; simp [extC], by rw [h]; simp [extC]⟩

theorem flatMap_pure_map (l : List α) (f : α → β) :
    (l.flatMap fun x => [f x]) = l.map f := by
  induction l with
  | nil => rfl
  | cons x xs ih => simp [List.flatMap_cons, ih]

theorem gpio_filterMap_pairs (n : ℕ) :
    List.filterMap gpioOf
        ((List.range n).flatMap (fun i => [Ev.gpioSet (dickeFlag i), Ev.readBlock]))
      = (List.range n).map dickeFlag := by
  rw [List.filterMap_flatMap]
  have h : ∀ i : ℕ, List.filterMap gpioOf [Ev.gpioSet (dickeFlag i), Ev.readBlock]
      = [dickeFlag i] := fun i => rfl
  simp only [h]
  exact flatMap_pure_map _ _

/-- Events of the Dicke loop body that touch the noise switch or read a
block. -/
def isGpioOrRead (e : Ev) : Bool := (gpioOf e).isSome || e == Ev.readBlock

/-- Dwell/read count of `dicke`: the loop runs over `range(N // num_samp)`
with `N = int(rate * t)`. -/
def dickeCnt (num_samp : ℕ) (rate t : ℚ) : ℕ :=
  ((pyInt (rate * t)).fdiv (num_samp : ℤ)).toNat

theorem dickeBody_gpio_error (E : Ext) (ns : ℕ) (rate fc t : ℚ) (cs : Bool)
    (herr : isOkE (dickeBody E ns rate fc t cs).result = false) :
    ∃ m, List.filterMap gpioOf (dickeBody E ns rate fc t cs).trace
      = (List.range m).map dickeFlag := by
  have hfold : ((pyInt (rate * t)).fdiv (ns : ℤ)).toNat = dickeCnt ns rate t := rfl
  simp only [dickeBody] at herr ⊢
  by_cases hns : ns = 0
  · rw [if_pos hns]
    exact ⟨0, rfl⟩
  · rw [if_neg hns, hfold] at herr ⊢
    rcases hfind : List.find? (fun k => !E.readOk k)
        (List.range (dickeCnt ns rate t)) with _ | k
    · rw [hfind] at herr
      simp only [] at herr ⊢
      by_cases hcnt : dickeCnt ns rate t = 0
      · rw [if_pos hcnt]
        refine ⟨dickeCnt ns rate t, ?_⟩
        simp [List.filterMap_append, gpio_filterMap_pairs, gpioOf]
      · rw [if_neg hcnt] at herr ⊢
        by_cases hsave : E.saveOk = true
        · simp [isOkE, hsave] at herr
        · refine ⟨dickeCnt ns rate t, ?_⟩
          rw [if_pos (by simp [Bool.not_eq_true] at hsave ⊢; exact hsave)]
          simp [List.filterMap_append, gpio_filterMap_pairs, gpioOf]
    · simp only [] at herr ⊢
      refine ⟨k + 1, ?_⟩
      rw [List.range_succ]
      simp [List.filterMap_append, gpio_filterMap_pairs, gpioOf]

theorem dickeBody_gpio_ok (E : Ext) (ns : ℕ) (rate fc t : ℚ) (cs : Bool)
    (hok : isOkE (dickeBody E ns rate fc t cs).result = true) :
    List.filterMap gpioOf (dickeBody E ns rate fc t cs).trace
      = (List.range (dickeCnt ns rate t)).map dickeFlag
        ++ (if cs then [0] else []) := by
  have hfold : ((pyInt (rate * t)).fdiv (ns : ℤ)).toNat = dickeCnt ns rate t := rfl
  simp only [dickeBody] at hok ⊢
  by_cases hns : ns = 0
  · rw [if_pos hns] at hok
    simp [isOkE] at hok
  · rw [if_neg hns, hfold] at hok ⊢
    rcases hfind : List.find? (fun k => !E.readOk k)
        (List.range (dickeCnt ns rate t)) with _ | k
    · rw [hfind] at hok
      simp only [] at hok ⊢
      by_cases hcnt : dickeCnt ns rate t = 0
      · simp [isOkE, hcnt] at hok
      · rw [if_neg hcnt] at hok ⊢
        by_cases hsave : E.saveOk = true
        · rw [if_neg (by simp [hsave])]
          cases cs <;>
            simp [List.filterMap_append, gpio_filterMap_pairs, gpioOf]
        · simp [isOkE, hcnt, hsave] at hok
    · rw [hfind] at hok
      simp [isOkE] at hok

theorem wrapRun_result_eq (s o : Bool) (body : Bool → RunOut α) :
    (wrapRun s o body).result
      = if s = true then (body false).result
        else if o = true then (body true).result
        else Except.error PyErr.hardwareError := by
  cases s <;> cases o <;> simp [wrapRun]

theorem wrapRun_filterMap (s o : Bool) (body : Bool → RunOut α) (f : Ev → Option β)
    (hopen : f Ev.openSdr = none) (hclose : f Ev.closeSdr = none) :
    List.filterMap f (wrapRun s o body).trace
      = if s = true then List.filterMap f (body false).trace
        else if o = true then List.filterMap f (body true).trace
        else [] := by
  cases s <;> cases o <;>
    simp [wrapRun, List.filterMap_append, List.filterMap_cons, hopen, hclose]

theorem wrapRun_filter (s o : Bool) (body : Bool → RunOut α) (p : Ev → Bool)
    (hopen : p Ev.openSdr = false) (hclose : p Ev.closeSdr = false) :
    List.filter p (wrapRun s o body).trace
      = if s = true then List.filter p (body false).trace
        else if o = true then List.filter p (body true).trace
        else [] := by
  cases s <;> cases o <;>
    simp [wrapRun, List.filter_append, List.filter_cons, hopen, hclose]

theorem gr_filter_pairs (n : ℕ) :
    ((List.range n).flatMap
        (fun i => [Ev.gpioSet (dickeFlag i), Ev.readBlock])).filter isGpioOrRead
      = (List.range n).flatMap (fun i => [Ev.gpioSet (dickeFlag i), Ev.readBlock]) := by
  rw [List.filter_flatMap]
  have h : ∀ i : ℕ, List.filter isGpioOrRead [Ev.gpioSet (dickeFlag i), Ev.readBlock]
      = [Ev.gpioSet (dickeFlag i), Ev.readBlock] := fun i => rfl
  simp only [h]

theorem dickeBody_gr (E : Ext) (ns : ℕ) (rate fc t : ℚ) (cs : Bool)
    (hread : ∀ k, E.readOk k = true) :
    (dickeBody E ns rate fc t cs).trace.filter isGpioOrRead
      = ((List.range (dickeCnt ns rate t)).flatMap
          (fun i => [Ev.gpioSet (dickeFlag i), Ev.readBlock]))
        ++ (if (isOkE (dickeBody E ns rate fc t cs).result && cs) = true
            then [Ev.gpioSet 0] else []) := by
  have hfold : ((pyInt (rate * t)).fdiv (ns : ℤ)).toNat = dickeCnt ns rate t := rfl
  have hfind := find?_range_none (p := fun k => !E.readOk k)
    (fun k => by simp [hread k]) (dickeCnt ns rate t)
  simp only [dickeBody]
  by_cases hns : ns = 0
  · rw [if_pos hns]
    have hcnt0 : dickeCnt ns rate t = 0 := by
      rw [dickeCnt, hns]
      simp [Int.fdiv_zero]
    simp [hcnt0, isOkE, isGpioOrRead, gpioOf]
  · rw [if_neg hns, hfold, hfind]
    simp only []
    by_cases hcnt : dickeCnt ns rate t = 0
    · rw [if_pos hcnt, hcnt]
      simp [isOkE, isGpioOrRead, gpioOf]
    · rw [if_neg hcnt]
      by_cases hsave : E.saveOk = true
      · rw [if_neg (by simp [hsave])]
        cases cs <;>
          simp [isOkE, isGpioOrRead, gpioOf, List.filter_append, gr_filter_pairs,
            List.filter_cons]
      · rw [if_pos (by simp [Bool.not_eq_true] at hsave ⊢; exact hsave)]
        simp [isOkE, isGpioOrRead, gpioOf, List.filter_append, gr_filter_pairs,
          List.filter_cons]

/-- Variant of `extC` in which opening the device fails. -/
def extOff : Ext :=
  ⟨fun _ => [10, 20, 30, 40],
   fun _ => [1, 2, 3, 4],
   fun n => List.replicate n 1,
   fun _ => [⟨1, 0⟩, ⟨0, 1⟩],
   fun i => (i : ℚ),
   false,
   fun _ => true,
   true,
   0⟩

/-- Claim C10: in `dicke`, GPIO bit 4 is set to the current switch flag
(`1, 0, 1, 0, …`, starting with `1`) immediately before every block
acquisition, but it is reset to `0` only on the normal-completion path and
only when the driver itself opened the device; on every exception exit and
on every call with a caller-supplied handle, the last level set — possibly
noise-on — is left as is.  Concretely: the sequence of GPIO set events of a
caller-supplied-handle run or of any failing run is a prefix-shaped flag
sequence with no trailing reset, a driver-opened normal run appends exactly
one final `0`, and on a run whose reads all succeed the gpio/read event
subsequence is `set flag(i); read` for each block, plus the single trailing
reset exactly when the driver opened the device and completed normally. -/
theorem claim10_dicke_gpio (E : Ext) (num_samp : ℕ) (gain rate fc t : ℚ)
    (sdrProvided : Bool) :
    (sdrProvided = true →
      ∃ m, (dicke E num_samp gain rate fc t sdrProvided).trace.filterMap gpioOf
        = (List.range m).map dickeFlag) ∧
    (isOkE (dicke E num_samp gain rate fc t sdrProvided).result = false →
      ∃ m, (dicke E num_samp gain rate fc t sdrProvided).trace.filterMap gpioOf
        = (List.range m).map dickeFlag) ∧
    (sdrProvided = false → E.openOk = true →
      isOkE (dicke E num_samp gain rate fc t sdrProvided).result = true →
      (dicke E num_samp gain rate fc t sdrProvided).trace.filterMap gpioOf
        = (List.range (dickeCnt num_samp rate t)).map dickeFlag ++ [0]) ∧
    ((sdrProvided = true ∨ E.openOk = true) → (∀ k, E.readOk k = true) →
      (dicke E num_samp gain rate fc t sdrProvided).trace.filter isGpioOrRead
        = ((List.range (dickeCnt num_samp rate t)).flatMap
            (fun i => [Ev.gpioSet (dickeFlag i), Ev.readBlock]))
          ++ (if sdrProvided = false
                ∧ isOkE (dicke E num_samp gain rate fc t sdrProvided).result = true
              then [Ev.gpioSet 0] else [])) := by
  have hres := wrapRun_result_eq sdrProvided E.openOk
    (fun close_sdr => dickeBody E num_samp rate fc t close_sdr)
  have hfm := wrapRun_filterMap sdrProvided E.openOk
    (fun close_sdr => dickeBody E num_samp rate fc t close_sdr) gpioOf rfl rfl
  have hfl := wrapRun_filter sdrProvided E.openOk
    (fun close_sdr => dickeBody E num_samp rate fc t close_sdr) isGpioOrRead rfl rfl
  refine ⟨?_, ?_, ?_, ?_⟩
  · intro hs
    rw [dicke, hfm, if_pos hs]
    rcases hok : isOkE (dickeBody E num_samp rate fc t false).result with _ | _
    · exact dickeBody_gpio_error E num_samp rate fc t false hok
    · refine ⟨dickeCnt num_samp rate t, ?_⟩
      rw [dickeBody_gpio_ok E num_samp rate fc t false hok]
      simp
  · intro herr
    rw [dicke, hres] at herr
    rw [dicke, hfm]
    cases sdrProvided with
    | true =>
      simp only [eq_self_iff_true, if_true] at herr ⊢
      exact dickeBody_gpio_error E num_samp rate fc t false herr
    | false =>
      simp only [Bool.false_eq_true, if_false] at herr ⊢
      cases hopen : E.openOk with
      | true =>
        rw [hopen] at herr
        simp only [eq_self_iff_true, if_true] at herr ⊢
        exact dickeBody_gpio_error E num_samp rate fc t true herr
      | false =>
        simp only [Bool.false_eq_true, if_false]
        exact ⟨0, rfl⟩
  · intro hs hopen hok
    subst hs
    simp only [dicke] at hok ⊢
    rw [hres] at hok
    rw [hfm]
    rw [hopen] at hok ⊢
    simp only [Bool.false_eq_true, if_false, eq_self_iff_true, if_true] at hok ⊢
    rw [dickeBody_gpio_ok E num_samp rate fc t true hok]
    simp
  · intro hvalid hread
    rw [dicke, hfl]
    rw [hres]
    cases sdrProvided with
    | true =>
      rw [if_pos rfl, if_pos rfl]
      rw [dickeBody_gr E num_samp rate fc t false hread]
      simp
    | false =>
      rcases hvalid with hv | hopen
      · exact absurd hv (by simp)
      · simp only [hopen, Bool.false_eq_true, if_false, eq_self_iff_true, if_true]
        rw [dickeBody_gr E num_samp rate fc t true hread]
        rcases hok : isOkE (dickeBody E num_samp rate fc t true).result with _ | _ <;>
          simp [hok]

theorem claim10_witness :
    (∃ m, (dicke extC 25 0 100 5 1 true).trace.filterMap gpioOf
        = (List.range m).map dickeFlag) ∧
    (∃ m, (dicke extOff 25 0 100 5 1 false).trace.filterMap gpioOf
        = (List.range m).map dickeFlag) :=
  ⟨(claim10_dicke_gpio extC 25 0 100 5 1 true).1 rfl,
   (claim10_dicke_gpio extOff 25 0 100 5 1 false).2.1 rfl⟩

theorem fswitchBody_freqs (E : Ext) (ns nbins np : ℕ) (rate fc fthrow t fsw : ℚ)
    (cs : Bool) (hns : ns ≠ 0) (hdw : dwellSamples rate fsw ≠ 0)
    (hread : ∀ k, E.readOk k = true) :
    (fswitchBody E ns nbins np rate fc fthrow t fsw cs).trace.filterMap freqOf
      = fc :: (List.range (numDwells rate t fsw).toNat).map
          (fun i => if i % 2 = 0 then fc else fthrow) := by
  have hfind := find?_range_none (p := fun r => !E.readOk r)
    (fun k => by simp [hread k])
    ((numDwells rate t fsw).toNat * (blocksPerDwell rate fsw ns).toNat)
  simp only [fswitchBody]
  rw [if_neg hns, if_neg hdw, hfind]
  simp only []
  cases cs <;>
    simp [List.filterMap_cons, List.filterMap_append, List.filterMap_flatMap, freqOf,
      filterMap_replicate_none, flatMap_pure_map]

theorem dickeBody_result_ok (E : Ext) (ns : ℕ) (rate fc t : ℚ) (cs : Bool)
    (r : DickeOut) (h : (dickeBody E ns rate fc t cs).result = Except.ok r) :
    r.noise_on = (List.range (dickeCnt ns rate t)).map dickeFlag := by
  have hfold : ((pyInt (rate * t)).fdiv (ns : ℤ)).toNat = dickeCnt ns rate t := rfl
  simp only [dickeBody] at h
  by_cases hns : ns = 0
  · rw [if_pos hns] at h
    simp at h
  · rw [if_neg hns, hfold] at h
    rcases hfind : List.find? (fun k => !E.readOk k)
        (List.range (dickeCnt ns rate t)) with _ | k
    · rw [hfind] at h
      simp only [] at h
      by_cases hcnt : dickeCnt ns rate t = 0
      · rw [if_pos hcnt] at h
        simp at h
      · rw [if_neg hcnt] at h
        by_cases hsave : E.saveOk = true
        · rw [if_neg (by simp [hsave])] at h
          have hr := (Except.ok.injEq _ _).mp h.symm
          rw [hr]
        · rw [if_pos (by simp [Bool.not_eq_true] at hsave ⊢; exact hsave)] at h
          simp at h
    · rw [hfind] at h
      simp at h

theorem dicke_result_ok (E : Ext) (ns : ℕ) (gain rate fc t : ℚ) (sdrP : Bool)
    (r : DickeOut) (h : (dicke E ns gain rate fc t sdrP).result = Except.ok r) :
    r.noise_on = (List.range (dickeCnt ns rate t)).map dickeFlag := by
  rw [dicke, wrapRun_result_eq] at h
  cases sdrP with
  | true =>
    simp only [eq_self_iff_true, if_true] at h
    exact dickeBody_result_ok E ns rate fc t false r h
  | false =>
    simp only [Bool.false_eq_true, if_false] at h
    cases hopen : E.openOk with
    | true =>
      rw [hopen] at h
      simp only [eq_self_iff_true, if_true] at h
      exact dickeBody_result_ok E ns rate fc t true r h
    | false =>
      rw [hopen] at h
      simp at h

/-- Claim C3 (amended): in `run_fswitch_int` the dwell schedule is
`N = int(rate * t_int)`, `N_dwell = int(rate * (1/fswitch))` (which over
exact arithmetic equals `floor(rate / fswitch)`), `blocks_per_dwell =
N_dwell // num_samp`, `num_dwells = N // N_dwell`, and the SDR is retuned
once per dwell, alternating fiducial (PRIMARY) / shifted (ALTERNATE)
starting with the fiducial frequency; for `rate = 2.4e6`, `fswitch = 10`,
`t_int = 1` this yields exactly 10 dwells.  The Dicke mode (`dicke`),
however, has no dwell bookkeeping — its switch toggles on every single
block — and it starts with the noise source ON (`flipflop = 1`, the
ALTERNATE/noise-on state), not with the claimed noise-off state. -/
theorem claim3_dwell_schedule (E : Ext) (num_samp nbins : ℕ)
    (gain rate fc fthrow t_int fswitch : ℚ)
    (hfs : 0 < fswitch) (hassert : 2 / fswitch ≤ t_int)
    (hopen : E.openOk = true) (hread : ∀ k, E.readOk k = true)
    (hns : num_samp ≠ 0) (hdw : dwellSamples rate fswitch ≠ 0) :
    dwellSamples rate fswitch = pyInt (rate / fswitch) ∧
    (run_fswitch_int E num_samp nbins gain rate fc fthrow t_int fswitch
        false).trace.filterMap freqOf
      = fc :: (dwellPlan rate t_int fswitch num_samp).map
          (fun e => if e.1 then fc else fthrow) ∧
    numDwells 2400000 1 10 = 10 ∧
    (dwellPlan 2400000 1 10 num_samp).map Prod.fst
      = [true, false, true, false, true, false, true, false, true, false] ∧
    dickeFlag 0 = 1 ∧
    (∀ r : DickeOut, (dicke E num_samp gain rate fc t_int false).result = Except.ok r →
      r.noise_on = (List.range (dickeCnt num_samp rate t_int)).map dickeFlag) := by
  have h10 : numDwells 2400000 1 10 = 10 := by
    have h1 : pyInt ((2400000 : ℚ) * 1) = 2400000 := by norm_num [pyInt]
    have h2 : pyInt ((2400000 : ℚ) * (1 / 10)) = 240000 := by norm_num [pyInt]
    rw [numDwells, totSamples, dwellSamples, h1, h2]
    decide
  refine ⟨by rw [dwellSamples, mul_one_div], ?_, h10, ?_, rfl,
    fun r h => dicke_result_ok E num_samp gain rate fc t_int false r h⟩
  · have hfs0 : fswitch ≠ 0 := ne_of_gt hfs
    have h2f : ¬¬((2 : ℚ) * (1 / fswitch) ≤ t_int) := by
      rw [show (2 : ℚ) * (1 / fswitch) = 2 / fswitch from by ring]
      exact not_not_intro hassert
    simp only [run_fswitch_int]
    rw [if_neg hfs0, if_neg h2f]
    rw [wrapRun_filterMap false E.openOk _ freqOf rfl rfl, hopen]
    simp only [Bool.false_eq_true, if_false, eq_self_iff_true, if_true]
    rw [fswitchBody_freqs E num_samp nbins (if nbins < 256 then nbins else 256)
      rate fc fthrow t_int fswitch true hns hdw hread]
    rw [dwellPlan, List.map_map, pyRange]
    refine congrArg (fc :: ·) (List.map_congr_left fun a _ => ?_)
    by_cases h : a % 2 = 0 <;> simp [h, Nat.mod_two_ne_zero]
  · rw [dwellPlan, List.map_map, pyRange, h10]
    show (List.range (10 : ℤ).toNat).map (fun i => (i % 2 == 0 : Bool)) = _
    decide

theorem claim3_witness :
    (run_fswitch_int extC 2 4 0 100 1420 1421 1 10 false).trace.filterMap freqOf
      = 1420 :: (dwellPlan 100 1 10 2).map (fun e => if e.1 then (1420 : ℚ) else 1421) ∧
    numDwells 2400000 1 10 = 10 :=
  ⟨(claim3_dwell_schedule extC 2 4 0 100 1420 1421 1 10 (by norm_num) (by norm_num)
      rfl (fun _ => rfl) (by norm_num) (by norm_num [dwellSamples, pyInt])).2.1,
   (claim3_dwell_schedule extC 2 4 0 100 1420 1421 1 10 (by norm_num) (by norm_num)
      rfl (fun _ => rfl) (by norm_num) (by norm_num [dwellSamples, pyInt])).2.2.1⟩

/-- Claim C3 is false as stated for the Dicke mode: at a concrete input the
switched acquisition starts with the noise source ON (`noise_on` begins
with `1`), not with the noise-off state first. -/
theorem claim3_counterexample :
    Except.map DickeOut.noise_on (dicke extC 25 0 100 5 1 false).result
      = Except.ok [1, 0, 1, 0] ∧ (1 : ℕ) ≠ 0 := by
  have hpy : pyInt ((100 : ℚ) * 1) = 100 := by norm_num [pyInt]
  constructor
  · rw [dicke, wrapRun_result_eq]
    simp only [Bool.false_eq_true, if_false]
    rw [show extC.openOk = true from rfl]
    simp only [eq_self_iff_true, if_true]
    simp only [dickeBody]
    rw [if_neg (by norm_num), hpy]
    rfl
  · norm_num

theorem npDiv_of_ne_zero (x : ℚ) (c : ℕ) (hc : c ≠ 0) :
    npDiv x c = NpVal.fin (x / (c : ℚ)) := by
  simp [npDiv, hc]

theorem npFinal_fin (y corr rate : ℚ) (hr : rate ≠ 0) :
    npDivQ (npMulQ (NpVal.fin y) corr) rate = NpVal.fin (y * corr / rate) := by
  simp [npMulQ, npDivQ, hr]

theorem fftshift_getD' (v : List α) (n : ℕ) (hv : v.length = n) {k : ℕ} (hk : k < n)
    (d : α) : (fftshift v).getD ((k + n / 2) % n) d = v.getD k d := by
  subst hv
  exact fftshift_getD v hk d

theorem run_spectrum_psd (E : Ext) (num_samp nbins : ℕ) (gain rate fc t_int : ℚ)
    (fgrid : List ℚ)
    (hopen : E.openOk = true) (hread : ∀ k, E.readOk k = true)
    (hP : ∀ b, (E.welchP b).length = nbins) (hF : ∀ b, E.welchF b = fgrid)
    (hrate : 0 < rate) (hns : num_samp ≠ 0) (ht : 0 ≤ t_int) :
    ∃ P : List NpVal,
      (run_spectrum_int E num_samp nbins gain rate fc t_int false).result
        = Except.ok ⟨(fftshift fgrid).map (fun x => x + fc), P⟩ ∧
      P.length = nbins ∧
      ∀ k, k < nbins →
        P.getD ((k + nbins / 2) % nbins) NpVal.nan
          = NpVal.fin ((((List.range ((pyInt (rate * t_int)).toNat / num_samp + 1)).map
                (fun j => (E.welchP (dcComp (E.src j))).getD k 0)).sum
              / (((pyInt (rate * t_int)).toNat / num_samp + 1 : ℕ) : ℚ))
            * winCorr (E.getWindow (if nbins < 256 then nbins else 256)) / rate) := by
  have hN : 0 ≤ pyInt (rate * t_int) := pyInt_nonneg (by positivity)
  simp only [run_spectrum_int]
  rw [wrapRun_result_eq, hopen]
  simp only [Bool.false_eq_true, if_false, eq_self_iff_true, if_true]
  simp only [spectrumBody]
  rw [if_neg hns, spectrum_cnt_eval _ _ hN,
    find?_range_none (fun k => by simp [hread k]) _]
  simp only []
  rcases hlast : (List.range ((pyInt (rate * t_int)).toNat / num_samp + 1)).getLast?
    with _ | j
  · exfalso
    rw [List.getLast?_eq_none_iff] at hlast
    have hlen := congrArg List.length hlast
    simp at hlen
  · simp only []
    rw [hF]
    refine ⟨_, rfl, ?_, ?_⟩
    all_goals
      have hpers : ∀ v ∈ (List.range ((pyInt (rate * t_int)).toNat / num_samp + 1)).map
          (fun j => E.welchP (dcComp (E.src j))), v.length = nbins := by
        intro v hv
        rcases List.mem_map.mp hv with ⟨j', _, rfl⟩
        exact hP _
    all_goals
      have h1 : (vsum nbins ((List.range ((pyInt (rate * t_int)).toNat / num_samp + 1)).map
          (fun j => E.welchP (dcComp (E.src j))))).length = nbins :=
        vsum_length _ _ hpers
    all_goals
      have h2 : ((vsum nbins ((List.range ((pyInt (rate * t_int)).toNat / num_samp
          + 1)).map (fun j => E.welchP (dcComp (E.src j))))).map
            (fun x => npDiv x ((pyInt (rate * t_int)).toNat / num_samp + 1))).length
          = nbins := by
        rw [List.length_map, h1]
    · rw [List.length_map, fftshift_length, h2]
    · intro k hk
      have hpos : (k + nbins / 2) % nbins < nbins := Nat.mod_lt _ (by omega)
      rw [getD_map_lt _ (by rw [fftshift_length, h2]; exact hpos) NpVal.nan (NpVal.fin 0),
        fftshift_getD' _ nbins h2 hk (NpVal.fin 0),
        getD_map_lt _ (by rw [h1]; exact hk) (NpVal.fin 0) 0,
        vsum_getD nbins _ hk hpers,
        npDiv_of_ne_zero _ _ (Nat.succ_ne_zero _),
        npFinal_fin _ _ _ (ne_of_gt hrate),
        List.map_map]
      rfl

theorem psd_pipeline_length (E : Ext) (nbins np : ℕ) (rate : ℚ) (idx : List ℕ)
    (hP : ∀ b, (E.welchP b).length = nbins) :
    ((fftshift ((vsum nbins (idx.map (fun r => E.welchP (dcComp (E.src r))))).map
        (fun x => npDiv x idx.length))).map
        (fun v => npDivQ (npMulQ v (winCorr (E.getWindow np))) rate)).length = nbins := by
  have hpers : ∀ v ∈ idx.map (fun r => E.welchP (dcComp (E.src r))), v.length = nbins := by
    intro v hv
    rcases List.mem_map.mp hv with ⟨r, _, rfl⟩
    exact hP _
  rw [List.length_map, fftshift_length, List.length_map, vsum_length _ _ hpers]

theorem psd_pipeline_getD (E : Ext) (nbins np : ℕ) (rate : ℚ) (idx : List ℕ)
    (hP : ∀ b, (E.welchP b).length = nbins) (hrate : 0 < rate) (hc : idx ≠ [])
    {k : ℕ} (hk : k < nbins) :
    ((fftshift ((vsum nbins (idx.map (fun r => E.welchP (dcComp (E.src r))))).map
        (fun x => npDiv x idx.length))).map
        (fun v => npDivQ (npMulQ v (winCorr (E.getWindow np))) rate)).getD
        ((k + nbins / 2) % nbins) NpVal.nan
      = NpVal.fin (((idx.map (fun r => (E.welchP (dcComp (E.src r))).getD k 0)).sum
          / (idx.length : ℚ)) * winCorr (E.getWindow np) / rate) := by
  have hpers : ∀ v ∈ idx.map (fun r => E.welchP (dcComp (E.src r))), v.length = nbins := by
    intro v hv
    rcases List.mem_map.mp hv with ⟨r, _, rfl⟩
    exact hP _
  have h1 : (vsum nbins (idx.map (fun r => E.welchP (dcComp (E.src r))))).length = nbins :=
    vsum_length _ _ hpers
  have h2 : ((vsum nbins (idx.map (fun r => E.welchP (dcComp (E.src r))))).map
      (fun x => npDiv x idx.length)).length = nbins := by
    rw [List.length_map, h1]
  have hpos : (k + nbins / 2) % nbins < nbins := Nat.mod_lt _ (by omega)
  rw [getD_map_lt _ (by rw [fftshift_length, h2]; exact hpos) NpVal.nan (NpVal.fin 0),
    fftshift_getD' _ nbins h2 hk (NpVal.fin 0),
    getD_map_lt _ (by rw [h1]; exact hk) (NpVal.fin 0) 0,
    vsum_getD nbins _ hk hpers,
    npDiv_of_ne_zero _ _ (by simpa [List.length_eq_zero] using hc),
    npFinal_fin _ _ _ (ne_of_gt hrate),
    List.map_map]
  rfl

theorem run_fswitch_psd (E : Ext) (num_samp nbins : ℕ)
    (gain rate fc fthrow t_int fswitch : ℚ) (fgrid : List ℚ)
    (hopen : E.openOk = true) (hread : ∀ k, E.readOk k = true)
    (hP : ∀ b, (E.welchP b).length = nbins) (hF : ∀ b, E.welchF b = fgrid)
    (hrate : 0 < rate) (hns : num_samp ≠ 0)
    (hfs : 0 < fswitch) (hassert : 2 / fswitch ≤ t_int)
    (hdw : dwellSamples rate fswitch ≠ 0)
    (honL : fsOnIdx (numDwells rate t_int fswitch).toNat
        (blocksPerDwell rate fswitch num_samp).toNat ≠ [])
    (hoffL : fsOffIdx (numDwells rate t_int fswitch).toNat
        (blocksPerDwell rate fswitch num_samp).toNat ≠ []) :
    ∃ Pon Poff : List NpVal,
      (run_fswitch_int E num_samp nbins gain rate fc fthrow t_int fswitch false).result
        = Except.ok ⟨(fftshift fgrid).map (fun x => x + fc), Pon,
            (fftshift fgrid).map (fun x => x + fthrow), Poff⟩ ∧
      Pon.length = nbins ∧ Poff.length = nbins ∧
      (∀ k, k < nbins →
        Pon.getD ((k + nbins / 2) % nbins) NpVal.nan
          = NpVal.fin ((((fsOnIdx (numDwells rate t_int fswitch).toNat
                  (blocksPerDwell rate fswitch num_samp).toNat).map
                (fun r => (E.welchP (dcComp (E.src r))).getD k 0)).sum
              / ((fsOnIdx (numDwells rate t_int fswitch).toNat
                  (blocksPerDwell rate fswitch num_samp).toNat).length : ℚ))
            * winCorr (E.getWindow (if nbins < 256 then nbins else 256)) / rate)) ∧
      (∀ k, k < nbins →
        Poff.getD ((k + nbins / 2) % nbins) NpVal.nan
          = NpVal.fin ((((fsOffIdx (numDwells rate t_int fswitch).toNat
                  (blocksPerDwell rate fswitch num_samp).toNat).map
                (fun r => (E.welchP (dcComp (E.src r))).getD k 0)).sum
              / ((fsOffIdx (numDwells rate t_int fswitch).toNat
                  (blocksPerDwell rate fswitch num_samp).toNat).length : ℚ))
            * winCorr (E.getWindow (if nbins < 256 then nbins else 256)) / rate)) := by
  have hfs0 : fswitch ≠ 0 := ne_of_gt hfs
  have h2f : ¬¬((2 : ℚ) * (1 / fswitch) ≤ t_int) := by
    rw [show (2 : ℚ) * (1 / fswitch) = 2 / fswitch from by ring]
    exact not_not_intro hassert
  simp only [run_fswitch_int]
  rw [if_neg hfs0, if_neg h2f, wrapRun_result_eq, hopen]
  simp only [Bool.false_eq_true, if_false, eq_self_iff_true, if_true]
  simp only [fswitchBody]
  rw [if_neg hns, if_neg hdw, find?_range_none (fun k => by simp [hread k]) _]
  simp only []
  rcases hlastOn : (fsOnIdx (numDwells rate t_int fswitch).toNat
      (blocksPerDwell rate fswitch num_samp).toNat).getLast? with _ | r
  · exact absurd (List.getLast?_eq_none_iff.mp hlastOn) honL
  rcases hlastOff : (fsOffIdx (numDwells rate t_int fswitch).toNat
      (blocksPerDwell rate fswitch num_samp).toNat).getLast? with _ | r'
  · exact absurd (List.getLast?_eq_none_iff.mp hlastOff) hoffL
  simp only [hF]
  refine ⟨_, _, rfl, ?_, ?_, ?_, ?_⟩
  · exact psd_pipeline_length E nbins _ rate _ hP
  · exact psd_pipeline_length E nbins _ rate _ hP
  · intro k hk
    exact psd_pipeline_getD E nbins _ rate _ hP hrate honL hk
  · intro k hk
    exact psd_pipeline_getD E nbins _ rate _ hP hrate hoffL hk

/-- Claim C2: for spectral integrations that accumulated a positive number
of periodograms of length `nbins` (always `N // num_samp + 1` in
`run_spectrum_int`; the even-dwell and odd-dwell read counts in
`run_fswitch_int`), the finalized power spectrum is the per-bin vector sum
divided by the count, with bin `k` moved to position
`(k + nbins/2) % nbins` (FFT-shift), the dwell's center frequency added to
every frequency-axis value, and every power value multiplied by the single
factor `((Σw)² / Σ(w²)) / rate`; in `run_fswitch_int` the PRIMARY spectrum's
axis gets `fc` and the ALTERNATE one's gets `fthrow`, and both spectra are
scaled by the same window-correction factor. -/
theorem claim2_psd_finalization (E : Ext) (num_samp nbins : ℕ)
    (gain rate fc fthrow t_int fswitch : ℚ) (fgrid : List ℚ)
    (hopen : E.openOk = true) (hread : ∀ k, E.readOk k = true)
    (hP : ∀ b, (E.welchP b).length = nbins) (hF : ∀ b, E.welchF b = fgrid)
    (hrate : 0 < rate) (hns : num_samp ≠ 0) (ht : 0 ≤ t_int)
    (hfs : 0 < fswitch) (hassert : 2 / fswitch ≤ t_int)
    (hdw : dwellSamples rate fswitch ≠ 0)
    (honL : fsOnIdx (numDwells rate t_int fswitch).toNat
        (blocksPerDwell rate fswitch num_samp).toNat ≠ [])
    (hoffL : fsOffIdx (numDwells rate t_int fswitch).toNat
        (blocksPerDwell rate fswitch num_samp).toNat ≠ []) :
    (∃ P : List NpVal,
      (run_spectrum_int E num_samp nbins gain rate fc t_int false).result
        = Except.ok ⟨(fftshift fgrid).map (fun x => x + fc), P⟩ ∧
      P.length = nbins ∧
      ∀ k, k < nbins →
        P.getD ((k + nbins / 2) % nbins) NpVal.nan
          = NpVal.fin ((((List.range ((pyInt (rate * t_int)).toNat / num_samp + 1)).map
                (fun j => (E.welchP (dcComp (E.src j))).getD k 0)).sum
              / (((pyInt (rate * t_int)).toNat / num_samp + 1 : ℕ) : ℚ))
            * winCorr (E.getWindow (if nbins < 256 then nbins else 256)) / rate)) ∧
    (∃ Pon Poff : List NpVal,
      (run_fswitch_int E num_samp nbins gain rate fc fthrow t_int fswitch false).result
        = Except.ok ⟨(fftshift fgrid).map (fun x => x + fc), Pon,
            (fftshift fgrid).map (fun x => x + fthrow), Poff⟩ ∧
      Pon.length = nbins ∧ Poff.length = nbins ∧
      (∀ k, k < nbins →
        Pon.getD ((k + nbins / 2) % nbins) NpVal.nan
          = NpVal.fin ((((fsOnIdx (numDwells rate t_int fswitch).toNat
                  (blocksPerDwell rate fswitch num_samp).toNat).map
                (fun r => (E.welchP (dcComp (E.src r))).getD k 0)).sum
              / ((fsOnIdx (numDwells rate t_int fswitch).toNat
                  (blocksPerDwell rate fswitch num_samp).toNat).length : ℚ))
            * winCorr (E.getWindow (if nbins < 256 then nbins else 256)) / rate)) ∧
      (∀ k, k < nbins →
        Poff.getD ((k + nbins / 2) % nbins) NpVal.nan
          = NpVal.fin ((((fsOffIdx (numDwells rate t_int fswitch).toNat
                  (blocksPerDwell rate fswitch num_samp).toNat).map
                (fun r => (E.welchP (dcComp (E.src r))).getD k 0)).sum
              / ((fsOffIdx (numDwells rate t_int fswitch).toNat
                  (blocksPerDwell rate fswitch num_samp).toNat).length : ℚ))
            * winCorr (E.getWindow (if nbins < 256 then nbins else 256)) / rate))) :=
  ⟨run_spectrum_psd E num_samp nbins gain rate fc t_int fgrid hopen hread hP hF
      hrate hns ht,
   run_fswitch_psd E num_samp nbins gain rate fc fthrow t_int fswitch fgrid hopen hread
      hP hF hrate hns hfs hassert hdw honL hoffL⟩

theorem claim2_witness :
    (∃ P : List NpVal,
      (run_spectrum_int extC 2 4 0 100 1000 1 false).result
        = Except.ok ⟨(fftshift [10, 20, 30, 40]).map (fun x => x + 1000), P⟩ ∧
      P.length = 4 ∧
      ∀ k, k < 4 →
        P.getD ((k + 4 / 2) % 4) NpVal.nan
          = NpVal.fin ((((List.range ((pyInt ((100 : ℚ) * 1)).toNat / 2 + 1)).map
                (fun j => (extC.welchP (dcComp (extC.src j))).getD k 0)).sum
              / (((pyInt ((100 : ℚ) * 1)).toNat / 2 + 1 : ℕ) : ℚ))
            * winCorr (extC.getWindow (if 4 < 256 then 4 else 256)) / 100)) ∧
    (∃ Pon Poff : List NpVal,
      (run_fswitch_int extC 2 4 0 100 1000 1001 1 10 false).result
        = Except.ok ⟨(fftshift [10, 20, 30, 40]).map (fun x => x + 1000), Pon,
            (fftshift [10, 20, 30, 40]).map (fun x => x + 1001), Poff⟩ ∧
      Pon.length = 4 ∧ Poff.length = 4 ∧
      (∀ k, k < 4 →
        Pon.getD ((k + 4 / 2) % 4) NpVal.nan
          = NpVal.fin ((((fsOnIdx (numDwells 100 1 10).toNat
                  (blocksPerDwell 100 10 2).toNat).map
                (fun r => (extC.welchP (dcComp (extC.src r))).getD k 0)).sum
              / ((fsOnIdx (numDwells 100 1 10).toNat
                  (blocksPerDwell 100 10 2).toNat).length : ℚ))
            * winCorr (extC.getWindow (if 4 < 256 then 4 else 256)) / 100)) ∧
      (∀ k, k < 4 →
        Poff.getD ((k + 4 / 2) % 4) NpVal.nan
          = NpVal.fin ((((fsOffIdx (numDwells 100 1 10).toNat
                  (blocksPerDwell 100 10 2).toNat).map
                (fun r => (extC.welchP (dcComp (extC.src r))).getD k 0)).sum
              / ((fsOffIdx (numDwells 100 1 10).toNat
                  (blocksPerDwell 100 10 2).toNat).length : ℚ))
            * winCorr (extC.getWindow (if 4 < 256 then 4 else 256)) / 100))) := by
  have hD : (numDwells 100 1 10).toNat = 10 := by
    have h1 : pyInt ((100 : ℚ) * 1) = 100 := by norm_num [pyInt]
    have h2 : pyInt ((100 : ℚ) * (1 / 10)) = 10 := by norm_num [pyInt]
    rw [numDwells, totSamples, dwellSamples, h1, h2]
    decide
  have hL : (blocksPerDwell 100 10 2).toNat = 5 := by
    have h2 : pyInt ((100 : ℚ) * (1 / 10)) = 10 := by norm_num [pyInt]
    rw [blocksPerDwell, dwellSamples, h2]
    decide
  exact claim2_psd_finalization extC 2 4 0 100 1000 1001 1 10 [10, 20, 30, 40]
    rfl (fun _ => rfl) (fun _ => rfl) (fun _ => rfl) (by norm_num) (by norm_num)
    (by norm_num) (by norm_num) (by norm_num) (by norm_num [dwellSamples, pyInt])
    (by rw [hD, hL]; decide) (by rw [hD, hL]; decide)

/-- Claim C1 concerns a code bug: in `run_fswitch_int`, when a switch state
accumulates zero periodograms (`cntOn == 0`, here because
`num_samp = 16 > N_dwell = 10` forces `num_loops = 0`), the averaging step
`p_xx_on /= cntOn` does NOT raise any error — the call returns normally
with every power bin equal to numpy `nan` (0/0) and the frequency axes
equal to the flat carrier offsets of the never-assigned zero arrays. -/
theorem claim1_zero_count_nan :
    (run_fswitch_int extC 16 8 0 100 1420 1421 1 10 false).result
      = Except.ok ⟨List.replicate 8 (1420 : ℚ), List.replicate 8 NpVal.nan,
          List.replicate 8 (1421 : ℚ), List.replicate 8 NpVal.nan⟩ := by
  have h1 : pyInt ((100 : ℚ) * 1) = 100 := by norm_num [pyInt]
  have h2 : pyInt ((100 : ℚ) * (1 / 10)) = 10 := by norm_num [pyInt]
  have hD : (numDwells 100 1 10).toNat = 10 := by
    rw [numDwells, totSamples, dwellSamples, h1, h2]
    decide
  have hL : (blocksPerDwell 100 10 16).toNat = 0 := by
    rw [blocksPerDwell, dwellSamples, h2]
    decide
  have hon : fsOnIdx 10 0 = ([] : List ℕ) := by decide
  have hoff : fsOffIdx 10 0 = ([] : List ℕ) := by decide
  simp only [run_fswitch_int]
  rw [if_neg (by norm_num), if_neg (by norm_num), wrapRun_result_eq,
    show extC.openOk = true from rfl]
  simp only [Bool.false_eq_true, if_false, eq_self_iff_true, if_true]
  simp only [fswitchBody]
  rw [if_neg (by norm_num), if_neg (by rw [dwellSamples, h2]; norm_num), hD, hL, hon, hoff]
  norm_num [vsum, vzeros, vadd, fftshift, npDiv, npMulQ, npDivQ,
    List.replicate_succ]
